import Mathlib

/-!
Verification development for the Microsoft Purview Unified Catalog console.

The definitions below are a shallow embedding of the client-resident
algorithms of `Microsoft_Purview_Utility/src/pages/Dashboard.tsx` and
`Microsoft_Purview_Utility/src/contexts/SelectedAssetsContext.tsx`:
the storage containment-hierarchy resolver (`buildStorageHierarchy` plus
the recursive node renderer), the bulk tag-removal loop
(`handleRemoveAllTags`), suggestion ingestion (`handleAutoClassify`),
the selection-set operations (`addAsset`, `removeAsset`, the node select
handler), the recently-interacted id list (`handleAssetClick`) and the
contact-removal request builders.

JavaScript strings are modelled as Lean `String`, JS objects used as
string-keyed dictionaries as association lists (`List (String × _)`)
with first-match lookup, and JS arrays as Lean lists.
-/

/-- String helper: does `pat` occur as a contiguous substring of `s`?
Models JavaScript `String.prototype.includes`. -/
def listContainsSub (pat : List Char) : List Char → Bool
  | [] => pat.isEmpty
  | c :: rest => pat.isPrefixOf (c :: rest) || listContainsSub pat rest

/-- `strContains s pat` models `s.includes(pat)` in JavaScript. -/
def strContains (s pat : String) : Bool :=
  listContainsSub pat.data s.data

/-- Replace the first occurrence of `pat` in `s` by `rep`; models
JavaScript `String.prototype.replace` with a string pattern (which only
replaces the first match). -/
def listReplaceFirst (pat rep : List Char) : List Char → List Char
  | [] => if pat.isEmpty then rep else []
  | c :: rest =>
    if pat.isPrefixOf (c :: rest) then rep ++ (c :: rest).drop pat.length
    else c :: listReplaceFirst pat rep rest

/-- `strReplaceFirst s pat rep` models `s.replace(pat, rep)`. -/
def strReplaceFirst (s pat rep : String) : String :=
  ⟨listReplaceFirst pat.data rep.data s.data⟩

/-- Drop the final `/`-separated segment of a path: models
`s.substring(0, s.lastIndexOf('/'))` (empty result when `s` has no `/`,
since `substring(0, -1)` clamps to the empty string). -/
def dropLastSegment (s : String) : String :=
  ⟨(((s.data.reverse.dropWhile (fun c => !(c = '/'))).drop 1)).reverse⟩

/-- One normalized catalog asset as consumed by the hierarchy code:
`assetType` is the display type string and `connection` the fully
qualified path (the `connection` field of the mapped card). -/
structure Asset where
  id : String
  name : String
  assetType : String
  connection : String
deriving DecidableEq, Repr

/-- Association-list lookup with first-match semantics and `[]` default:
models `map[key] || []` on a JS object used as a dictionary. -/
def lookupD (m : List (String × List Asset)) (k : String) : List Asset :=
  match m with
  | [] => []
  | (k', v) :: rest => if k' = k then v else lookupD rest k

/-- Append `v` to the list stored at key `k`, creating the entry when the
key is absent: models `if (!m[k]) m[k] = []; m[k].push(v)`. -/
def pushK (m : List (String × List Asset)) (k : String) (v : Asset) :
    List (String × List Asset) :=
  match m with
  | [] => [(k, [v])]
  | (k', w) :: rest =>
    if k' = k then (k', w ++ [v]) :: rest else (k', w) :: pushK rest k v

/-- Overwrite the entry at key `k` with the empty list (creating it when
absent): models the JS assignment `m[k] = []`. -/
def setK (m : List (String × List Asset)) (k : String) :
    List (String × List Asset) :=
  match m with
  | [] => [(k, [])]
  | (k', w) :: rest =>
    if k' = k then (k', []) :: rest else (k', w) :: setK rest k

/-- The four accumulators built by `buildStorageHierarchy`. -/
structure Hier where
  accounts : List Asset
  accountChildren : List (String × List Asset)
  blobStorageChildren : List (String × List Asset)
  containerChildren : List (String × List Asset)
deriving Repr

/-- Parent key computed for an `Azure Blob Storage` asset:
`connection.replace('.blob.core.windows.net', '.core.windows.net')`. -/
def accountUrlOf (a : Asset) : String :=
  strReplaceFirst a.connection ".blob.core.windows.net" ".core.windows.net"

/-- Processing of a single asset in the `storageAssets.forEach` body of
`buildStorageHierarchy` (Dashboard.tsx lines 445-465). -/
def hierStep (h : Hier) (a : Asset) : Hier :=
  if a.assetType = "Azure Storage Account" then
    { h with
      accounts := h.accounts ++ [a]
      accountChildren := setK h.accountChildren a.connection }
  else if a.assetType = "Azure Blob Storage" then
    { h with
      accountChildren := pushK h.accountChildren (accountUrlOf a) a
      blobStorageChildren := setK h.blobStorageChildren a.connection }
  else if a.assetType = "Azure Blob Container" then
    { h with
      blobStorageChildren :=
        pushK h.blobStorageChildren (dropLastSegment a.connection) a
      containerChildren := setK h.containerChildren a.connection }
  else if strContains a.assetType "File" || a.assetType = "Azure Blob" then
    { h with
      containerChildren :=
        pushK h.containerChildren (dropLastSegment a.connection) a }
  else h

/-- `buildStorageHierarchy` of Dashboard.tsx: one pass over the flat list
of storage assets building the parent-keyed children maps. -/
def buildStorageHierarchy (storageAssets : List Asset) : Hier :=
  storageAssets.foldl hierStep ⟨[], [], [], []⟩

/-- The children list the renderer passes to a node, chosen by the
node's asset type (Dashboard.tsx lines 638-644, and lines 780-787 for
the top-level accounts). -/
def childListFor (h : Hier) (a : Asset) : List Asset :=
  if a.assetType = "Azure Storage Account" then lookupD h.accountChildren a.connection
  else if a.assetType = "Azure Blob Storage" then lookupD h.blobStorageChildren a.connection
  else if a.assetType = "Azure Blob Container" then lookupD h.containerChildren a.connection
  else []

/-- Preorder listing of the assets rendered by one `renderStorageNode`
call: the node's own asset followed by the renderings of its children
(Dashboard.tsx lines 502-649).  The fuel argument bounds the recursion
depth; the real recursion is depth-bounded by the type chain
Account → Blob Storage → Container → File, so fuel 4 reproduces it
exactly (file-level nodes have an empty `childListFor`). -/
def renderNodeAssets (h : Hier) : Nat → Asset → List Asset
  | 0, a => [a]
  | Nat.succ f, a =>
    a :: ((childListFor h a).map (renderNodeAssets h f)).flatten

/-- Assets rendered from a worklist of sibling nodes. -/
def renderStorageList (h : Hier) (f : Nat) (l : List Asset) : List Asset :=
  (l.map (renderNodeAssets h f)).flatten

/-- All assets shown in the rendered storage hierarchy: the top level
renders exactly `accounts` (Dashboard.tsx lines 780-787), each with its
children from the maps. -/
def renderedForestAssets (storageAssets : List Asset) : List Asset :=
  let h := buildStorageHierarchy storageAssets
  renderStorageList h 4 h.accounts

/-! ## Selection Set (SelectedAssetsContext.tsx) -/

/-- Minimal entity snapshot stored in the selection set
(`SelectedAsset` of SelectedAssetsContext.tsx). -/
structure SelectedAsset where
  id : String
  name : String
  type : String
  qualifiedName : String
deriving DecidableEq, Repr

/-- `addAsset` (SelectedAssetsContext.tsx lines 33-39): no-op when an
entry with the same id is already present, otherwise append. -/
def addAsset (prev : List SelectedAsset) (asset : SelectedAsset) :
    List SelectedAsset :=
  if prev.any (fun a => a.id = asset.id) then prev else prev ++ [asset]

/-- `removeAsset` (SelectedAssetsContext.tsx lines 41-43). -/
def removeAsset (prev : List SelectedAsset) (id : String) :
    List SelectedAsset :=
  prev.filter (fun a => !(a.id = id))

/-- `isSelected` (SelectedAssetsContext.tsx lines 49-51). -/
def isSelected (sel : List SelectedAsset) (id : String) : Bool :=
  sel.any (fun a => a.id = id)

/-- The `handleSelect` click handler of `renderStorageNode`
(Dashboard.tsx lines 486-500): `isSelectable = !hasChildren`; a click on
a non-selectable node returns without touching the selection set,
otherwise it toggles membership of the node's asset. -/
def handleSelect (sel : List SelectedAsset) (asset : SelectedAsset)
    (children : List Asset) : List SelectedAsset :=
  let hasChildren := children.length > 0
  let isSelectable := !hasChildren
  if !isSelectable then sel
  else if isSelected sel asset.id then removeAsset sel asset.id
  else addAsset sel asset

/-! ## Recently-interacted id list (Dashboard.tsx `handleAssetClick`) -/

/-- `handleAssetClick` (Dashboard.tsx lines 54-70), as the pure update of
the persisted `recentAssets` list:
`[assetId, ...recent.filter(id => id !== assetId)].slice(0, 10)`. -/
def handleAssetClick (recent : List String) (assetId : String) :
    List String :=
  (assetId :: recent.filter (fun id => !(id = assetId))).take 10

/-! ## Bulk tag removal (Dashboard.tsx `handleRemoveAllTags`) -/

/-- One POST to `/api/curate/remove-tags` with body `{guids, tag}`. -/
structure TagRequest where
  guids : List String
  tag : String
deriving DecidableEq, Repr

/-- The `for (const tag of existingTags) await fetch(...)` loop of
`handleRemoveAllTags` (Dashboard.tsx lines 1487-1498), run against a
write oracle `w` (`w t = none` means the awaited fetch resolves,
`w t = some e` means it rejects with reason `e`).  The loop body sits
inside one `try`, so a rejection propagates immediately: the requests
after the failing one are never issued.  Returns the requests actually
issued and the error, if any, that reached the surrounding `catch`. -/
def removeTagsLoop (w : String → Option String) (guids : List String) :
    List String → List TagRequest × Option String
  | [] => ([], none)
  | t :: ts =>
    match w t with
    | none =>
      let r := removeTagsLoop w guids ts
      (⟨guids, t⟩ :: r.1, r.2)
    | some e => ([⟨guids, t⟩], some e)

/-- `handleRemoveAllTags` (Dashboard.tsx lines 1459-1518): early returns
when no assets are selected or no tags exist, otherwise the sequential
removal loop.  The user-visible outcome is a single success toast
(`none`) or the single error message of the first failure — there is no
per-key aggregation. -/
def handleRemoveAllTags (w : String → Option String) (guids : List String)
    (existingTags : List String) : List TagRequest × Option String :=
  if guids.length = 0 then ([], none)
  else if existingTags.length = 0 then ([], none)
  else removeTagsLoop w guids existingTags

/-! ## Suggestion ingestion (Dashboard.tsx `handleAutoClassify`) -/

/-- Column-level entry of the auto-classify response:
`columnInfo.classifications`. -/
structure ColumnInfo where
  classifications : List String
deriving DecidableEq, Repr

/-- Per-entity entry of the auto-classify response. -/
structure EntitySuggestion where
  has_schema : Bool
  classifications : List (String × ColumnInfo)
deriving DecidableEq, Repr

/-- String-keyed map assignment `m[k] = v` (overwrite or append). -/
def assignK (m : List (String × List String)) (k : String)
    (v : List String) : List (String × List String) :=
  match m with
  | [] => [(k, v)]
  | (k', w) :: rest =>
    if k' = k then (k', v) :: rest else (k', w) :: assignK rest k v

/-- First-match lookup in a string-keyed map of string lists. -/
def lookupS (m : List (String × List String)) (k : String) :
    Option (List String) :=
  match m with
  | [] => none
  | (k', v) :: rest => if k' = k then some v else lookupS rest k

/-- Inner loop body of the suggestion ingestion (Dashboard.tsx lines
2136-2140): a column with a non-empty suggested classification list is
assigned that list. -/
def suggColumnStep (acc2 : List (String × List String))
    (cp : String × ColumnInfo) : List (String × List String) :=
  if cp.2.classifications.length > 0 then
    assignK acc2 cp.1 cp.2.classifications
  else acc2

/-- Outer loop body of the suggestion ingestion (Dashboard.tsx lines
2134-2142): entities with a schema contribute their column entries. -/
def suggEntityStep (acc : List (String × List String))
    (p : String × EntitySuggestion) : List (String × List String) :=
  if p.2.has_schema then p.2.classifications.foldl suggColumnStep acc
  else acc

/-- The map built from the suggestions by `handleAutoClassify`
(Dashboard.tsx lines 2131-2142), starting from an empty object. -/
def buildSuggestionMap (suggestions : List (String × EntitySuggestion)) :
    List (String × List String) :=
  suggestions.foldl suggEntityStep []

/-- The state update applied to `columnClassifications` by
`handleAutoClassify` in the column-level branch (Dashboard.tsx lines
2130-2144): `setColumnClassifications(newColumnClassifications)`
replaces the previous map — the prior value, including any user edits,
is not consulted. -/
def handleAutoClassifyIngest
    (columnClassifications : List (String × List String))
    (suggestions : List (String × EntitySuggestion)) :
    List (String × List String) :=
  buildSuggestionMap suggestions

/-! ## Contact removal requests (Dashboard.tsx) -/

/-- Body of a POST to `/api/curate/remove-owner`. -/
structure ContactRemoveRequest where
  guids : List String
  contactType : String
deriving DecidableEq, Repr

/-- Request built by `handleRemoveSpecificOwner` (Dashboard.tsx lines
1606-1615): the body is `{guids, contactType: "Owner"}` — the
`ownerId`/`displayName` arguments do not appear in it. -/
def removeSpecificOwnerRequest (guids : List String) (ownerId : String)
    (displayName : String) : ContactRemoveRequest :=
  ⟨guids, "Owner"⟩

/-- Request built by `handleRemoveOwner`, the remove-ALL-owners action
(Dashboard.tsx lines 1666-1675). -/
def removeOwnerRequest (guids : List String) : ContactRemoveRequest :=
  ⟨guids, "Owner"⟩

/-- Request built by `handleRemoveSpecificExpert` (Dashboard.tsx lines
1721-1730): body `{guids, contactType: "Expert"}`. -/
def removeSpecificExpertRequest (guids : List String) (expertId : String)
    (displayName : String) : ContactRemoveRequest :=
  ⟨guids, "Expert"⟩

/-- Request built by `handleRemoveExpert`, the remove-ALL-experts action
(same body shape with `contactType: "Expert"`). -/
def removeExpertRequest (guids : List String) : ContactRemoveRequest :=
  ⟨guids, "Expert"⟩

/-! ## Derived notions used by the hierarchy theorems -/

/-- All asset values stored across the entries of a children map. -/
def mvals (m : List (String × List Asset)) : List Asset :=
  (m.map Prod.snd).flatten

/-- Remove the first entry keyed `k` from a children map. -/
def eraseKey (m : List (String × List Asset)) (k : String) :
    List (String × List Asset) :=
  match m with
  | [] => []
  | (k', v) :: rest => if k' = k then rest else (k', v) :: eraseKey rest k

/-- Asset-type tests mirroring the branch conditions of
`buildStorageHierarchy`'s `forEach` body, in source order. -/
def isAccountB (a : Asset) : Bool := a.assetType == "Azure Storage Account"

def isBlobStorageB (a : Asset) : Bool := a.assetType == "Azure Blob Storage"

def isContainerB (a : Asset) : Bool := a.assetType == "Azure Blob Container"

/-- The file-level branch: reached only past the three exact type tests,
for types containing `File` or exactly `Azure Blob`. -/
def isFileB (a : Asset) : Bool :=
  !isAccountB a && !isBlobStorageB a && !isContainerB a &&
    (strContains a.assetType "File" || a.assetType == "Azure Blob")

/-- The parent path `buildStorageHierarchy` computes for a non-account
storage asset: the canonicalized account URL for a blob storage, the
path with its final segment removed otherwise. -/
def parentKeyOf (a : Asset) : String :=
  if a.assetType = "Azure Blob Storage" then accountUrlOf a
  else dropLastSegment a.connection

/-- Level 1 of the rendered storage forest: the account roots. -/
def hierL1 (assets : List Asset) : List Asset :=
  (buildStorageHierarchy assets).accounts

/-- Level 2: children rendered under the roots, i.e. the
`accountChildren` lists looked up at each root's connection. -/
def hierL2 (assets : List Asset) : List Asset :=
  ((hierL1 assets).map
    (fun r => lookupD (buildStorageHierarchy assets).accountChildren
      r.connection)).flatten

/-- Level 3: children rendered under level-2 nodes. -/
def hierL3 (assets : List Asset) : List Asset :=
  ((hierL2 assets).map
    (fun b => lookupD (buildStorageHierarchy assets).blobStorageChildren
      b.connection)).flatten

/-- Level 4: children rendered under level-3 nodes. -/
def hierL4 (assets : List Asset) : List Asset :=
  ((hierL3 assets).map
    (fun c => lookupD (buildStorageHierarchy assets).containerChildren
      c.connection)).flatten

/-- Typing and key discipline of the three children maps: every stored
asset comes from the input pool, has the asset type of its level, and is
stored under exactly the parent key computed for it. -/
def HierInv (pool : List Asset) (h : Hier) : Prop :=
  (∀ kv ∈ h.accountChildren, ∀ y ∈ kv.2,
      y ∈ pool ∧ y.assetType = "Azure Blob Storage" ∧ accountUrlOf y = kv.1) ∧
  (∀ kv ∈ h.blobStorageChildren, ∀ y ∈ kv.2,
      y ∈ pool ∧ y.assetType = "Azure Blob Container" ∧
        dropLastSegment y.connection = kv.1) ∧
  (∀ kv ∈ h.containerChildren, ∀ y ∈ kv.2,
      y ∈ pool ∧ isFileB y = true ∧ dropLastSegment y.connection = kv.1)

/-- Concrete storage account used by the worked examples
(`qualifiedPath acct.core.windows.net`). -/
def acctExample : Asset :=
  ⟨"sa1", "acct", "Azure Storage Account", "acct.core.windows.net"⟩

/-- Concrete blob storage tier of the same logical account
(`qualifiedPath acct.blob.core.windows.net`). -/
def blobExample : Asset :=
  ⟨"bs1", "acct-blob", "Azure Blob Storage", "acct.blob.core.windows.net"⟩

/-- A blob storage entity whose computed parent
(`lost.core.windows.net`) matches no entity of the input set. -/
def orphanBlobA : Asset :=
  ⟨"ob1", "orphan-a", "Azure Blob Storage", "lost.blob.core.windows.net"⟩

/-- A second orphan blob storage entity, parent
`stray.core.windows.net` absent from the input set. -/
def orphanBlobB : Asset :=
  ⟨"ob2", "orphan-b", "Azure Blob Storage", "stray.blob.core.windows.net"⟩

/-- Write oracle whose awaited fetch rejects on tag `B` and resolves on
every other tag. -/
def failingOnB : String → Option String :=
  fun t => if t = "B" then some "network failure" else none

/-- Concrete selection-set snapshots used by the worked examples. -/
def selFile1 : SelectedAsset :=
  ⟨"f1", "data.csv", "file", "acct.core.windows.net/data/data.csv"⟩

def selFile2 : SelectedAsset :=
  ⟨"f2", "data2.csv", "file", "acct.core.windows.net/data/data2.csv"⟩

/-- A snapshot sharing `selFile1`'s id with different display fields. -/
def selFile1Renamed : SelectedAsset :=
  ⟨"f1", "renamed.csv", "file", "elsewhere/renamed.csv"⟩

/-! ## Association-map counting lemmas -/

theorem count_flatten_eq (x : Asset) (l : List (List Asset)) :
    l.flatten.count x = (l.map (fun s => s.count x)).sum := by
  induction l with
  | nil => simp
  | cons s l ih => simp [List.count_append, ih]

theorem lookupD_eraseKey_ne (m : List (String × List Asset)) (k k' : String)
    (h : k' ≠ k) : lookupD (eraseKey m k) k' = lookupD m k' := by
  induction m with
  | nil => simp [eraseKey, lookupD]
  | cons kv rest ih =>
    obtain ⟨k₀, v₀⟩ := kv
    by_cases hk : k₀ = k
    · subst hk
      simp [eraseKey, lookupD, Ne.symm h]
    · simp [eraseKey, lookupD, hk]
      by_cases hk' : k₀ = k'
      · simp [hk']
      · simp [hk', ih]

theorem count_lookupD_add_eraseKey (m : List (String × List Asset))
    (k : String) (x : Asset) :
    (lookupD m k).count x + (mvals (eraseKey m k)).count x
      = (mvals m).count x := by
  induction m with
  | nil => simp [lookupD, eraseKey, mvals]
  | cons kv rest ih =>
    obtain ⟨k₀, v₀⟩ := kv
    by_cases hk : k₀ = k
    · subst hk
      simp [lookupD, eraseKey, mvals, List.count_append]
    · simp [lookupD, eraseKey, mvals, hk, List.count_append] at *
      omega

theorem sum_count_lookupD_le (m : List (String × List Asset)) (x : Asset)
    (ks : List String) (hks : ks.Nodup) :
    ((ks.map (fun k => (lookupD m k).count x)).sum ≤ (mvals m).count x) := by
  induction ks generalizing m with
  | nil => simp
  | cons k ks ih =>
    rw [List.nodup_cons] at hks
    obtain ⟨hk, hks⟩ := hks
    have hcongr : ks.map (fun k' => (lookupD m k').count x)
        = ks.map (fun k' => (lookupD (eraseKey m k) k').count x) := by
      apply List.map_congr_left
      intro k' hk'
      rw [lookupD_eraseKey_ne]
      intro he
      exact hk (he ▸ hk')
    simp only [List.map_cons, List.sum_cons, hcongr]
    have := ih (eraseKey m k) hks
    have h2 := count_lookupD_add_eraseKey m k x
    omega

theorem count_mvals_pushK (m : List (String × List Asset)) (k : String)
    (v x : Asset) :
    (mvals (pushK m k v)).count x
      = (mvals m).count x + (if v = x then 1 else 0) := by
  induction m with
  | nil =>
    simp [pushK, mvals, List.count_cons, List.count_nil]
  | cons kv rest ih =>
    obtain ⟨k₀, v₀⟩ := kv
    simp only [mvals] at ih
    by_cases hk : k₀ = k
    · simp [pushK, hk, mvals, List.count_append, List.count_cons]
      by_cases hv : v = x <;> simp [hv] <;> omega
    · simp [pushK, hk, mvals, List.count_append, ih]
      omega

theorem count_mvals_setK_le (m : List (String × List Asset)) (k : String)
    (x : Asset) : (mvals (setK m k)).count x ≤ (mvals m).count x := by
  induction m with
  | nil => simp [setK, mvals]
  | cons kv rest ih =>
    obtain ⟨k₀, v₀⟩ := kv
    simp only [mvals] at ih
    by_cases hk : k₀ = k
    · simp [setK, hk, mvals, List.count_append]
    · simp [setK, hk, mvals, List.count_append]
      omega

theorem mem_lookupD (m : List (String × List Asset)) (k : String)
    (y : Asset) (h : y ∈ lookupD m k) : ∃ v, (k, v) ∈ m ∧ y ∈ v := by
  induction m with
  | nil => simp [lookupD] at h
  | cons kv rest ih =>
    obtain ⟨k₀, v₀⟩ := kv
    by_cases hk : k₀ = k
    · subst hk
      simp [lookupD] at h
      exact ⟨v₀, by simp, h⟩
    · simp [lookupD, hk] at h
      obtain ⟨v, hv, hy⟩ := ih h
      exact ⟨v, by simp [hv], hy⟩

/-! ## Invariants of the `buildStorageHierarchy` fold -/

theorem accounts_foldl (l : List Asset) (h0 : Hier) :
    (l.foldl hierStep h0).accounts = h0.accounts ++ l.filter isAccountB := by
  induction l generalizing h0 with
  | nil => simp
  | cons a l ih =>
    rw [List.foldl_cons, ih]
    by_cases h1 : a.assetType = "Azure Storage Account"
    · simp [hierStep, h1, isAccountB, List.filter_cons]
    · have hb : isAccountB a = false := by
        simp [isAccountB, h1]
      by_cases h2 : a.assetType = "Azure Blob Storage"
      · simp [hierStep, h1, h2, List.filter_cons, hb]
      · by_cases h3 : a.assetType = "Azure Blob Container"
        · simp [hierStep, h1, h2, h3, List.filter_cons, hb]
        · by_cases h4 : strContains a.assetType "File" || a.assetType = "Azure Blob"
          · simp [hierStep, h1, h2, h3, h4, List.filter_cons, hb]
          · simp [hierStep, h1, h2, h3, h4, List.filter_cons, hb]

/-- Branch case analysis helper: every asset falls into exactly one of
the five branches of `hierStep`. -/
theorem hierStep_cases (h : Hier) (a : Asset) :
    (a.assetType = "Azure Storage Account" ∧
      hierStep h a = { h with
        accounts := h.accounts ++ [a]
        accountChildren := setK h.accountChildren a.connection }) ∨
    (a.assetType = "Azure Blob Storage" ∧
      hierStep h a = { h with
        accountChildren := pushK h.accountChildren (accountUrlOf a) a
        blobStorageChildren := setK h.blobStorageChildren a.connection }) ∨
    (a.assetType = "Azure Blob Container" ∧
      hierStep h a = { h with
        blobStorageChildren :=
          pushK h.blobStorageChildren (dropLastSegment a.connection) a
        containerChildren := setK h.containerChildren a.connection }) ∨
    (isFileB a = true ∧
      hierStep h a = { h with
        containerChildren :=
          pushK h.containerChildren (dropLastSegment a.connection) a }) ∨
    (isFileB a = false ∧ isAccountB a = false ∧ isBlobStorageB a = false ∧
      isContainerB a = false ∧ hierStep h a = h) := by
  by_cases h1 : a.assetType = "Azure Storage Account"
  · exact Or.inl ⟨h1, by simp [hierStep, h1]⟩
  · by_cases h2 : a.assetType = "Azure Blob Storage"
    · exact Or.inr (Or.inl ⟨h2, by simp [hierStep, h1, h2]⟩)
    · by_cases h3 : a.assetType = "Azure Blob Container"
      · exact Or.inr (Or.inr (Or.inl ⟨h3, by simp [hierStep, h1, h2, h3]⟩))
      · by_cases h4 : strContains a.assetType "File" || a.assetType = "Azure Blob"
        · refine Or.inr (Or.inr (Or.inr (Or.inl ⟨?_, by simp [hierStep, h1, h2, h3, h4]⟩)))
          simp only [isFileB, isAccountB, isBlobStorageB, isContainerB]
          simp only [Bool.or_eq_true, decide_eq_true_eq] at h4
          simp [h1, h2, h3]
          rcases h4 with h4 | h4
          · simp [h4]
          · simp [h4]
        · refine Or.inr (Or.inr (Or.inr (Or.inr ⟨?_, ?_, ?_, ?_, by simp [hierStep, h1, h2, h3, h4]⟩)))
          · simp only [isFileB, isAccountB, isBlobStorageB, isContainerB]
            simp only [Bool.or_eq_true, decide_eq_true_eq, not_or] at h4
            simp [h1, h2, h3, h4.1, h4.2]
          · simp [isAccountB, h1]
          · simp [isBlobStorageB, h2]
          · simp [isContainerB, h3]

theorem countA_foldl_le (l : List Asset) (h0 : Hier) (x : Asset) :
    (mvals (l.foldl hierStep h0).accountChildren).count x
      ≤ (mvals h0.accountChildren).count x
        + (l.filter isBlobStorageB).count x := by
  induction l generalizing h0 with
  | nil => simp
  | cons a l ih =>
    rw [List.foldl_cons]
    have step := ih (hierStep h0 a)
    rcases hierStep_cases h0 a with ⟨hty, he⟩ | ⟨hty, he⟩ | ⟨hty, he⟩ | ⟨hty, he⟩ | ⟨_, _, hbl, _, he⟩
    · have hbl : isBlobStorageB a = false := by
        simp [isBlobStorageB, hty]
      have hs := count_mvals_setK_le h0.accountChildren a.connection x
      rw [he] at step ⊢
      dsimp only at step
      simp only [List.filter_cons, hbl, Bool.false_eq_true, if_false]
      omega
    · have hbl : isBlobStorageB a = true := by
        simp [isBlobStorageB, hty]
      have hp := count_mvals_pushK h0.accountChildren (accountUrlOf a) a x
      rw [he] at step ⊢
      dsimp only at step
      simp only [List.filter_cons, hbl, if_true]
      rw [List.count_cons]
      by_cases hax : a = x
      · subst hax
        simp only [eq_self_iff_true, if_true] at hp
        simp only [beq_self_eq_true, if_true]
        omega
      · have hbeq : (x == a) = false := by
          simp [Ne.symm hax]
        simp only [hax, if_false] at hp
        simp [hbeq]
        omega
    · have hbl : isBlobStorageB a = false := by
        simp [isBlobStorageB, hty]
      rw [he] at step ⊢
      dsimp only at step
      simp only [List.filter_cons, hbl, Bool.false_eq_true, if_false]
      omega
    · have hbl : isBlobStorageB a = false := by
        simp only [isFileB] at hty
        simp [Bool.and_eq_true] at hty
        simp [hty.1.1.2]
      rw [he] at step ⊢
      dsimp only at step
      simp only [List.filter_cons, hbl, Bool.false_eq_true, if_false]
      omega
    · rw [he]
      have step2 := ih h0
      simp only [List.filter_cons, hbl, Bool.false_eq_true, if_false]
      omega

theorem countB_foldl_le (l : List Asset) (h0 : Hier) (x : Asset) :
    (mvals (l.foldl hierStep h0).blobStorageChildren).count x
      ≤ (mvals h0.blobStorageChildren).count x
        + (l.filter isContainerB).count x := by
  induction l generalizing h0 with
  | nil => simp
  | cons a l ih =>
    rw [List.foldl_cons]
    have step := ih (hierStep h0 a)
    rcases hierStep_cases h0 a with ⟨hty, he⟩ | ⟨hty, he⟩ | ⟨hty, he⟩ | ⟨hty, he⟩ | ⟨_, _, _, hct, he⟩
    · have hct : isContainerB a = false := by
        simp [isContainerB, hty]
      rw [he] at step ⊢
      dsimp only at step
      simp only [List.filter_cons, hct, Bool.false_eq_true, if_false]
      omega
    · have hct : isContainerB a = false := by
        simp [isContainerB, hty]
      have hs := count_mvals_setK_le h0.blobStorageChildren a.connection x
      rw [he] at step ⊢
      dsimp only at step
      simp only [List.filter_cons, hct, Bool.false_eq_true, if_false]
      omega
    · have hct : isContainerB a = true := by
        simp [isContainerB, hty]
      have hp := count_mvals_pushK h0.blobStorageChildren
        (dropLastSegment a.connection) a x
      rw [he] at step ⊢
      dsimp only at step
      simp only [List.filter_cons, hct, if_true]
      rw [List.count_cons]
      by_cases hax : a = x
      · subst hax
        simp only [eq_self_iff_true, if_true] at hp
        simp only [beq_self_eq_true, if_true]
        omega
      · have hbeq : (x == a) = false := by
          simp [Ne.symm hax]
        simp only [hax, if_false] at hp
        simp [hbeq]
        omega
    · have hct : isContainerB a = false := by
        simp only [isFileB] at hty
        simp [Bool.and_eq_true] at hty
        simp [hty.1.2]
      rw [he] at step ⊢
      dsimp only at step
      simp only [List.filter_cons, hct, Bool.false_eq_true, if_false]
      omega
    · rw [he]
      have step2 := ih h0
      simp only [List.filter_cons, hct, Bool.false_eq_true, if_false]
      omega

theorem countC_foldl_le (l : List Asset) (h0 : Hier) (x : Asset) :
    (mvals (l.foldl hierStep h0).containerChildren).count x
      ≤ (mvals h0.containerChildren).count x
        + (l.filter isFileB).count x := by
  induction l generalizing h0 with
  | nil => simp
  | cons a l ih =>
    rw [List.foldl_cons]
    have step := ih (hierStep h0 a)
    rcases hierStep_cases h0 a with ⟨hty, he⟩ | ⟨hty, he⟩ | ⟨hty, he⟩ | ⟨hty, he⟩ | ⟨hfl, _, _, _, he⟩
    · have hfl : isFileB a = false := by
        simp [isFileB, isAccountB, hty]
      rw [he] at step ⊢
      dsimp only at step
      simp only [List.filter_cons, hfl, Bool.false_eq_true, if_false]
      omega
    · have hfl : isFileB a = false := by
        simp [isFileB, isBlobStorageB, hty]
      rw [he] at step ⊢
      dsimp only at step
      simp only [List.filter_cons, hfl, Bool.false_eq_true, if_false]
      omega
    · have hfl : isFileB a = false := by
        simp [isFileB, isContainerB, hty]
      have hs := count_mvals_setK_le h0.containerChildren a.connection x
      rw [he] at step ⊢
      dsimp only at step
      simp only [List.filter_cons, hfl, Bool.false_eq_true, if_false]
      omega
    · have hp := count_mvals_pushK h0.containerChildren
        (dropLastSegment a.connection) a x
      rw [he] at step ⊢
      dsimp only at step
      simp only [List.filter_cons, hty, if_true]
      rw [List.count_cons]
      by_cases hax : a = x
      · subst hax
        simp only [eq_self_iff_true, if_true] at hp
        simp only [beq_self_eq_true, if_true]
        omega
      · have hbeq : (x == a) = false := by
          simp [Ne.symm hax]
        simp only [hax, if_false] at hp
        simp [hbeq]
        omega
    · rw [he]
      have step2 := ih h0
      simp only [List.filter_cons, hfl, Bool.false_eq_true, if_false]
      omega

theorem forall_pushK {Q : String → Asset → Prop}
    (m : List (String × List Asset)) (k : String) (v : Asset)
    (hm : ∀ kv ∈ m, ∀ y ∈ kv.2, Q kv.1 y) (hv : Q k v) :
    ∀ kv ∈ pushK m k v, ∀ y ∈ kv.2, Q kv.1 y := by
  induction m with
  | nil =>
    intro kv hkv y hy
    simp [pushK] at hkv
    subst hkv
    simp at hy
    subst hy
    exact hv
  | cons kv₀ rest ih =>
    obtain ⟨k₀, v₀⟩ := kv₀
    intro kv hkv y hy
    by_cases hk : k₀ = k
    · subst hk
      simp [pushK] at hkv
      rcases hkv with hkv | hkv
      · subst hkv
        simp at hy
        rcases hy with hy | hy
        · exact hm (k₀, v₀) (by simp) y hy
        · subst hy
          exact hv
      · exact hm kv (by simp [hkv]) y hy
    · simp [pushK, hk] at hkv
      rcases hkv with hkv | hkv
      · subst hkv
        exact hm (k₀, v₀) (by simp) y hy
      · exact ih (fun kv' hkv' => hm kv' (by simp [hkv'])) kv hkv y hy

theorem forall_setK {Q : String → Asset → Prop}
    (m : List (String × List Asset)) (k : String)
    (hm : ∀ kv ∈ m, ∀ y ∈ kv.2, Q kv.1 y) :
    ∀ kv ∈ setK m k, ∀ y ∈ kv.2, Q kv.1 y := by
  induction m with
  | nil =>
    intro kv hkv y hy
    simp [setK] at hkv
    subst hkv
    simp at hy
  | cons kv₀ rest ih =>
    obtain ⟨k₀, v₀⟩ := kv₀
    intro kv hkv y hy
    by_cases hk : k₀ = k
    · subst hk
      simp [setK] at hkv
      rcases hkv with hkv | hkv
      · subst hkv
        simp at hy
      · exact hm kv (by simp [hkv]) y hy
    · simp [setK, hk] at hkv
      rcases hkv with hkv | hkv
      · subst hkv
        exact hm (k₀, v₀) (by simp) y hy
      · exact ih (fun kv' hkv' => hm kv' (by simp [hkv'])) kv hkv y hy

theorem hierInv_step (pool : List Asset) (h : Hier) (a : Asset)
    (hinv : HierInv pool h) (ha : a ∈ pool) :
    HierInv pool (hierStep h a) := by
  obtain ⟨hA, hB, hC⟩ := hinv
  rcases hierStep_cases h a with ⟨hty, he⟩ | ⟨hty, he⟩ | ⟨hty, he⟩ | ⟨hty, he⟩ | ⟨_, _, _, _, he⟩
  · rw [he]
    unfold HierInv
    dsimp only
    exact ⟨forall_setK
      (Q := fun k y => y ∈ pool ∧ y.assetType = "Azure Blob Storage" ∧ accountUrlOf y = k)
      h.accountChildren a.connection hA, hB, hC⟩
  · rw [he]
    unfold HierInv
    dsimp only
    refine ⟨forall_pushK
      (Q := fun k y => y ∈ pool ∧ y.assetType = "Azure Blob Storage" ∧ accountUrlOf y = k)
      h.accountChildren (accountUrlOf a) a hA ?_,
      forall_setK
        (Q := fun k y => y ∈ pool ∧ y.assetType = "Azure Blob Container" ∧ dropLastSegment y.connection = k)
        h.blobStorageChildren a.connection hB, hC⟩
    exact ⟨ha, hty, rfl⟩
  · rw [he]
    unfold HierInv
    dsimp only
    refine ⟨hA, forall_pushK
      (Q := fun k y => y ∈ pool ∧ y.assetType = "Azure Blob Container" ∧ dropLastSegment y.connection = k)
      h.blobStorageChildren (dropLastSegment a.connection) a hB ?_,
      forall_setK
        (Q := fun k y => y ∈ pool ∧ isFileB y = true ∧ dropLastSegment y.connection = k)
        h.containerChildren a.connection hC⟩
    exact ⟨ha, hty, rfl⟩
  · rw [he]
    unfold HierInv
    dsimp only
    refine ⟨hA, hB, forall_pushK
      (Q := fun k y => y ∈ pool ∧ isFileB y = true ∧ dropLastSegment y.connection = k)
      h.containerChildren (dropLastSegment a.connection) a hC ?_⟩
    exact ⟨ha, hty, rfl⟩
  · rw [he]
    exact ⟨hA, hB, hC⟩

theorem hierInv_foldl (pool : List Asset) (l : List Asset) (h0 : Hier)
    (hl : ∀ a ∈ l, a ∈ pool) (hinv : HierInv pool h0) :
    HierInv pool (l.foldl hierStep h0) := by
  induction l generalizing h0 with
  | nil => exact hinv
  | cons a l ih =>
    rw [List.foldl_cons]
    exact ih (hierStep h0 a) (fun b hb => hl b (by simp [hb]))
      (hierInv_step pool h0 a hinv (hl a (by simp)))

theorem hierInv_build (assets : List Asset) :
    HierInv assets (buildStorageHierarchy assets) := by
  refine hierInv_foldl assets assets ⟨[], [], [], []⟩ (fun a ha => ha) ?_
  refine ⟨?_, ?_, ?_⟩ <;> intro kv hkv <;> simp at hkv

/-! ## Rendering lemmas -/

theorem renderStorageList_nil (h : Hier) (f : Nat) :
    renderStorageList h f [] = [] := by
  cases f <;> simp [renderStorageList]

theorem renderStorageList_zero (h : Hier) (l : List Asset) :
    renderStorageList h 0 l = l := by
  induction l with
  | nil => simp [renderStorageList]
  | cons a rest ih =>
    simp only [renderStorageList] at ih ⊢
    rw [List.map_cons, List.flatten_cons, ih]
    simp [renderNodeAssets]

theorem renderStorageList_append (h : Hier) (f : Nat) (u v : List Asset) :
    renderStorageList h f (u ++ v)
      = renderStorageList h f u ++ renderStorageList h f v := by
  induction u with
  | nil => simp [renderStorageList_nil]
  | cons a u ih =>
    cases f with
    | zero => simp [renderStorageList, ih]
    | succ g => simp [renderStorageList, ih]

theorem count_renderStorageList_succ (h : Hier) (f : Nat) (l : List Asset)
    (x : Asset) :
    (renderStorageList h (f + 1) l).count x
      = l.count x
        + (renderStorageList h f ((l.map (childListFor h)).flatten)).count x := by
  induction l with
  | nil => simp [renderStorageList_nil]
  | cons a rest ih =>
    rw [show renderStorageList h (f + 1) (a :: rest)
        = a :: (renderStorageList h f (childListFor h a) ++
            renderStorageList h (f + 1) rest) from by
      simp [renderStorageList, renderNodeAssets]]
    rw [List.count_cons, List.count_append, ih]
    simp only [List.map_cons, List.flatten_cons, renderStorageList_append,
      List.count_append, List.count_cons]
    omega

theorem hierL1_eq_filter (assets : List Asset) :
    hierL1 assets = assets.filter isAccountB := by
  unfold hierL1 buildStorageHierarchy
  rw [accounts_foldl]
  rfl

theorem childListFor_of_account (h : Hier) (r : Asset)
    (hr : r.assetType = "Azure Storage Account") :
    childListFor h r = lookupD h.accountChildren r.connection := by
  simp [childListFor, hr]

theorem childListFor_of_blob (h : Hier) (b : Asset)
    (hb : b.assetType = "Azure Blob Storage") :
    childListFor h b = lookupD h.blobStorageChildren b.connection := by
  have hne : ¬("Azure Blob Storage" = "Azure Storage Account") := by decide
  simp [childListFor, hb, hne]

theorem childListFor_of_container (h : Hier) (c : Asset)
    (hc : c.assetType = "Azure Blob Container") :
    childListFor h c = lookupD h.containerChildren c.connection := by
  have hne1 : ¬("Azure Blob Container" = "Azure Storage Account") := by decide
  have hne2 : ¬("Azure Blob Container" = "Azure Blob Storage") := by decide
  simp [childListFor, hc, hne1, hne2]

theorem childListFor_of_file (h : Hier) (d : Asset)
    (hd : isFileB d = true) : childListFor h d = [] := by
  simp only [isFileB, isAccountB, isBlobStorageB, isContainerB,
    Bool.and_eq_true, Bool.not_eq_true'] at hd
  obtain ⟨⟨⟨h1, h2⟩, h3⟩, _⟩ := hd
  simp only [beq_eq_false_iff_ne, ne_eq] at h1 h2 h3
  simp [childListFor, h1, h2, h3]

theorem hierL2_elem (assets : List Asset) (y : Asset)
    (hy : y ∈ hierL2 assets) :
    y ∈ assets ∧ y.assetType = "Azure Blob Storage" := by
  unfold hierL2 at hy
  rw [List.mem_flatten] at hy
  obtain ⟨s, hs, hys⟩ := hy
  rw [List.mem_map] at hs
  obtain ⟨r, _, hr⟩ := hs
  subst hr
  obtain ⟨v, hv, hyv⟩ := mem_lookupD _ _ _ hys
  have hinv := (hierInv_build assets).1 _ hv y hyv
  exact ⟨hinv.1, hinv.2.1⟩

theorem hierL3_elem (assets : List Asset) (y : Asset)
    (hy : y ∈ hierL3 assets) :
    y ∈ assets ∧ y.assetType = "Azure Blob Container" := by
  unfold hierL3 at hy
  rw [List.mem_flatten] at hy
  obtain ⟨s, hs, hys⟩ := hy
  rw [List.mem_map] at hs
  obtain ⟨b, _, hb⟩ := hs
  subst hb
  obtain ⟨v, hv, hyv⟩ := mem_lookupD _ _ _ hys
  have hinv := (hierInv_build assets).2.1 _ hv y hyv
  exact ⟨hinv.1, hinv.2.1⟩

theorem hierL4_elem (assets : List Asset) (y : Asset)
    (hy : y ∈ hierL4 assets) : y ∈ assets ∧ isFileB y = true := by
  unfold hierL4 at hy
  rw [List.mem_flatten] at hy
  obtain ⟨s, hs, hys⟩ := hy
  rw [List.mem_map] at hs
  obtain ⟨c, _, hc⟩ := hs
  subst hc
  obtain ⟨v, hv, hyv⟩ := mem_lookupD _ _ _ hys
  have hinv := (hierInv_build assets).2.2 _ hv y hyv
  exact ⟨hinv.1, hinv.2.1⟩

theorem forest_count_decomp (assets : List Asset) (x : Asset) :
    (renderedForestAssets assets).count x
      = (hierL1 assets).count x + (hierL2 assets).count x
        + (hierL3 assets).count x + (hierL4 assets).count x := by
  have hmap1 : (hierL1 assets).map (childListFor (buildStorageHierarchy assets))
      = (hierL1 assets).map (fun r =>
          lookupD (buildStorageHierarchy assets).accountChildren r.connection) := by
    apply List.map_congr_left
    intro r hr
    apply childListFor_of_account
    rw [hierL1_eq_filter] at hr
    have := List.of_mem_filter hr
    simpa [isAccountB] using this
  have hmap2 : (hierL2 assets).map (childListFor (buildStorageHierarchy assets))
      = (hierL2 assets).map (fun b =>
          lookupD (buildStorageHierarchy assets).blobStorageChildren b.connection) := by
    apply List.map_congr_left
    intro b hb
    exact childListFor_of_blob _ b (hierL2_elem assets b hb).2
  have hmap3 : (hierL3 assets).map (childListFor (buildStorageHierarchy assets))
      = (hierL3 assets).map (fun c =>
          lookupD (buildStorageHierarchy assets).containerChildren c.connection) := by
    apply List.map_congr_left
    intro c hc
    exact childListFor_of_container _ c (hierL3_elem assets c hc).2
  have hmap4 : (hierL4 assets).map (childListFor (buildStorageHierarchy assets))
      = (hierL4 assets).map (fun _ => ([] : List Asset)) := by
    apply List.map_congr_left
    intro d hd
    exact childListFor_of_file _ d (hierL4_elem assets d hd).2
  show (renderStorageList (buildStorageHierarchy assets) 4 (hierL1 assets)).count x = _
  rw [count_renderStorageList_succ, hmap1]
  rw [show ((hierL1 assets).map (fun r =>
      lookupD (buildStorageHierarchy assets).accountChildren r.connection)).flatten
    = hierL2 assets from rfl]
  rw [count_renderStorageList_succ, hmap2]
  rw [show ((hierL2 assets).map (fun b =>
      lookupD (buildStorageHierarchy assets).blobStorageChildren b.connection)).flatten
    = hierL3 assets from rfl]
  rw [count_renderStorageList_succ, hmap3]
  rw [show ((hierL3 assets).map (fun c =>
      lookupD (buildStorageHierarchy assets).containerChildren c.connection)).flatten
    = hierL4 assets from rfl]
  rw [count_renderStorageList_succ, hmap4]
  have hflat : ((hierL4 assets).map (fun _ => ([] : List Asset))).flatten
      = ([] : List Asset) := by
    induction hierL4 assets with
    | nil => simp
    | cons c rest ih => simp [ih]
  rw [hflat, renderStorageList_nil]
  simp [Nat.add_assoc]

theorem count_flatten_lookup_le (m : List (String × List Asset)) (x : Asset)
    (rs : List Asset) (h : (rs.map (fun r => r.connection)).Nodup) :
    ((rs.map (fun r => lookupD m r.connection)).flatten).count x
      ≤ (mvals m).count x := by
  rw [count_flatten_eq]
  have he : List.map (fun s => s.count x)
        (rs.map (fun r => lookupD m r.connection))
      = (rs.map (fun r => r.connection)).map
          (fun k => (lookupD m k).count x) := by
    simp only [List.map_map]
    rfl
  rw [he]
  exact sum_count_lookupD_le m x _ h

theorem nodup_conn_of_count_le (l L : List Asset)
    (hsub : ∀ y, l.count y ≤ L.count y)
    (hL : (L.map (fun a => a.connection)).Nodup) :
    (l.map (fun a => a.connection)).Nodup := by
  have hLnd : L.Nodup := hL.of_map
  have hlnd : l.Nodup := by
    rw [List.nodup_iff_count_le_one]
    intro y
    exact le_trans (hsub y) (List.nodup_iff_count_le_one.mp hLnd y)
  refine List.Nodup.map_on ?_ hlnd
  intro y hy z hz hyz
  have hyL : y ∈ L := by
    have : 0 < l.count y := List.count_pos_iff.mpr hy
    exact List.count_pos_iff.mp (lt_of_lt_of_le this (hsub y))
  have hzL : z ∈ L := by
    have : 0 < l.count z := List.count_pos_iff.mpr hz
    exact List.count_pos_iff.mp (lt_of_lt_of_le this (hsub z))
  exact List.inj_on_of_nodup_map hL hyL hzL hyz

theorem count_filter_le_self (p : Asset → Bool) (l : List Asset) (x : Asset) :
    (l.filter p).count x ≤ l.count x :=
  (List.filter_sublist l).count_le x

theorem count_filter_eq_zero_of_neg (p : Asset → Bool) (l : List Asset)
    (x : Asset) (hp : p x = false) : (l.filter p).count x = 0 := by
  rw [List.count_eq_zero]
  intro hmem
  have := List.of_mem_filter hmem
  rw [hp] at this
  exact absurd this (by simp)

theorem hierL1_conn_nodup (assets : List Asset)
    (hconn : (assets.map (fun a => a.connection)).Nodup) :
    ((hierL1 assets).map (fun a => a.connection)).Nodup := by
  rw [hierL1_eq_filter]
  exact ((assets.filter_sublist).map (fun a => a.connection)).nodup hconn

theorem count_hierL2_le_filter (assets : List Asset) (x : Asset)
    (hconn : (assets.map (fun a => a.connection)).Nodup) :
    (hierL2 assets).count x ≤ (assets.filter isBlobStorageB).count x := by
  have h1 := count_flatten_lookup_le
    (buildStorageHierarchy assets).accountChildren x (hierL1 assets)
    (hierL1_conn_nodup assets hconn)
  have h2 := countA_foldl_le assets ⟨[], [], [], []⟩ x
  simp only [mvals, List.map_nil, List.flatten_nil, List.count_nil,
    Nat.zero_add] at h2
  exact le_trans h1 h2

theorem count_hierL2_le_assets (assets : List Asset) (x : Asset)
    (hconn : (assets.map (fun a => a.connection)).Nodup) :
    (hierL2 assets).count x ≤ assets.count x :=
  le_trans (count_hierL2_le_filter assets x hconn)
    (count_filter_le_self _ _ _)

theorem hierL2_conn_nodup (assets : List Asset)
    (hconn : (assets.map (fun a => a.connection)).Nodup) :
    ((hierL2 assets).map (fun a => a.connection)).Nodup :=
  nodup_conn_of_count_le _ assets
    (fun y => count_hierL2_le_assets assets y hconn) hconn

theorem count_hierL3_le_filter (assets : List Asset) (x : Asset)
    (hconn : (assets.map (fun a => a.connection)).Nodup) :
    (hierL3 assets).count x ≤ (assets.filter isContainerB).count x := by
  have h1 := count_flatten_lookup_le
    (buildStorageHierarchy assets).blobStorageChildren x (hierL2 assets)
    (hierL2_conn_nodup assets hconn)
  have h2 := countB_foldl_le assets ⟨[], [], [], []⟩ x
  simp only [mvals, List.map_nil, List.flatten_nil, List.count_nil,
    Nat.zero_add] at h2
  exact le_trans h1 h2

theorem count_hierL3_le_assets (assets : List Asset) (x : Asset)
    (hconn : (assets.map (fun a => a.connection)).Nodup) :
    (hierL3 assets).count x ≤ assets.count x :=
  le_trans (count_hierL3_le_filter assets x hconn)
    (count_filter_le_self _ _ _)

theorem hierL3_conn_nodup (assets : List Asset)
    (hconn : (assets.map (fun a => a.connection)).Nodup) :
    ((hierL3 assets).map (fun a => a.connection)).Nodup :=
  nodup_conn_of_count_le _ assets
    (fun y => count_hierL3_le_assets assets y hconn) hconn

theorem count_hierL4_le_filter (assets : List Asset) (x : Asset)
    (hconn : (assets.map (fun a => a.connection)).Nodup) :
    (hierL4 assets).count x ≤ (assets.filter isFileB).count x := by
  have h1 := count_flatten_lookup_le
    (buildStorageHierarchy assets).containerChildren x (hierL3 assets)
    (hierL3_conn_nodup assets hconn)
  have h2 := countC_foldl_le assets ⟨[], [], [], []⟩ x
  simp only [mvals, List.map_nil, List.flatten_nil, List.count_nil,
    Nat.zero_add] at h2
  exact le_trans h1 h2

/-- Claim C1, as stated, is false: the input entity `orphanBlobA` (a
storage-kind entity) appears in zero nodes of the resolved forest, not
exactly one — `buildStorageHierarchy` files it under its computed parent
key, but the renderer only walks the `accounts` roots, so an entity
whose parent account is absent is lost from the output. -/
theorem storage_forest_counterexample_entity_lost :
    (renderedForestAssets [orphanBlobA]).count orphanBlobA = 0 := by decide

/-- Claim C1, amended: provided the input entities carry pairwise
distinct qualified paths, the resolved forest contains each input entity
in AT MOST one node (no duplication); entities whose parent chain does
not reach an input `StorageAccount` are absent rather than present. -/
theorem storage_forest_each_entity_at_most_once (assets : List Asset)
    (hconn : (assets.map (fun a => a.connection)).Nodup) (x : Asset) :
    (renderedForestAssets assets).count x ≤ 1 := by
  rw [forest_count_decomp]
  have hx1 : assets.count x ≤ 1 :=
    List.nodup_iff_count_le_one.mp hconn.of_map x
  have b1 : (hierL1 assets).count x = (assets.filter isAccountB).count x := by
    rw [hierL1_eq_filter]
  have b2 := count_hierL2_le_filter assets x hconn
  have b3 := count_hierL3_le_filter assets x hconn
  have b4 := count_hierL4_le_filter assets x hconn
  have ha := count_filter_le_self isAccountB assets x
  have hb := count_filter_le_self isBlobStorageB assets x
  have hc := count_filter_le_self isContainerB assets x
  have hd := count_filter_le_self isFileB assets x
  by_cases h1 : isAccountB x = true
  · have e : x.assetType = "Azure Storage Account" := by
      simpa [isAccountB] using h1
    have z2 := count_filter_eq_zero_of_neg isBlobStorageB assets x
      (by simp [isBlobStorageB, e])
    have z3 := count_filter_eq_zero_of_neg isContainerB assets x
      (by simp [isContainerB, e])
    have z4 := count_filter_eq_zero_of_neg isFileB assets x
      (by simp [isFileB, h1])
    omega
  · have z1 := count_filter_eq_zero_of_neg isAccountB assets x
      (by simpa using h1)
    by_cases h2 : isBlobStorageB x = true
    · have e : x.assetType = "Azure Blob Storage" := by
        simpa [isBlobStorageB] using h2
      have z3 := count_filter_eq_zero_of_neg isContainerB assets x
        (by simp [isContainerB, e])
      have z4 := count_filter_eq_zero_of_neg isFileB assets x
        (by simp [isFileB, h2])
      omega
    · have z2 := count_filter_eq_zero_of_neg isBlobStorageB assets x
        (by simpa using h2)
      by_cases h3 : isContainerB x = true
      · have z4 := count_filter_eq_zero_of_neg isFileB assets x
          (by simp [isFileB, h3])
        omega
      · have z3 := count_filter_eq_zero_of_neg isContainerB assets x
          (by simpa using h3)
        by_cases h4 : isFileB x = true
        · omega
        · have z4 := count_filter_eq_zero_of_neg isFileB assets x
            (by simpa using h4)
          omega

/-- Witness for the amended C1 theorem at a concrete input: the account
and its blob storage tier have distinct paths, and each occurs at most
once in the rendered forest. -/
theorem storage_forest_each_entity_at_most_once_witness :
    (([acctExample, blobExample].map (fun a => a.connection)).Nodup) ∧
      (renderedForestAssets [acctExample, blobExample]).count blobExample ≤ 1 :=
  ⟨by decide, storage_forest_each_entity_at_most_once
    [acctExample, blobExample] (by decide) blobExample⟩

/-- Claim C2, as stated, is false: the blob-storage entity
`orphanBlobB`, whose computed parent path matches no entity of the input
set, is not placed as a top-level orphan node — the rendered forest for
the singleton input is empty, so the entity is dropped. -/
theorem orphan_counterexample_dropped :
    renderedForestAssets [orphanBlobB] = [] := by decide

/-- Claim C2, amended: a non-account storage entity whose computed
parent path (after suffix canonicalization / final-segment removal)
matches no entity in the input set is dropped from the rendered forest
entirely — it appears in no node, top-level or otherwise. -/
theorem orphan_entity_absent_from_forest (assets : List Asset) (a : Asset)
    (htype : a.assetType = "Azure Blob Storage" ∨
      a.assetType = "Azure Blob Container" ∨ isFileB a = true)
    (horph : ∀ x ∈ assets, x.connection ≠ parentKeyOf a) :
    a ∉ renderedForestAssets assets := by
  intro hmem
  have hcnt : 0 < (renderedForestAssets assets).count a :=
    List.count_pos_iff.mpr hmem
  rw [forest_count_decomp] at hcnt
  have z1 : (hierL1 assets).count a = 0 := by
    rw [hierL1_eq_filter]
    apply count_filter_eq_zero_of_neg
    rcases htype with e | e | e
    · simp [isAccountB, e]
    · simp [isAccountB, e]
    · simp only [isFileB, Bool.and_eq_true, Bool.not_eq_true'] at e
      exact e.1.1.1
  have z2 : (hierL2 assets).count a = 0 := by
    rw [List.count_eq_zero]
    intro hy
    unfold hierL2 at hy
    rw [List.mem_flatten] at hy
    obtain ⟨s, hs, hys⟩ := hy
    rw [List.mem_map] at hs
    obtain ⟨r, hrL1, hr⟩ := hs
    subst hr
    obtain ⟨v, hv, hyv⟩ := mem_lookupD _ _ _ hys
    have hinv := (hierInv_build assets).1 _ hv a hyv
    have hrA : r ∈ assets := by
      rw [hierL1_eq_filter] at hrL1
      exact List.mem_of_mem_filter hrL1
    apply horph r hrA
    unfold parentKeyOf
    rw [if_pos hinv.2.1]
    exact hinv.2.2.symm
  have z3 : (hierL3 assets).count a = 0 := by
    rw [List.count_eq_zero]
    intro hy
    unfold hierL3 at hy
    rw [List.mem_flatten] at hy
    obtain ⟨s, hs, hys⟩ := hy
    rw [List.mem_map] at hs
    obtain ⟨b, hbL2, hb⟩ := hs
    subst hb
    obtain ⟨v, hv, hyv⟩ := mem_lookupD _ _ _ hys
    have hinv := (hierInv_build assets).2.1 _ hv a hyv
    have hbA : b ∈ assets := (hierL2_elem assets b hbL2).1
    apply horph b hbA
    unfold parentKeyOf
    rw [if_neg (by rw [hinv.2.1]; decide)]
    exact hinv.2.2.symm
  have z4 : (hierL4 assets).count a = 0 := by
    rw [List.count_eq_zero]
    intro hy
    unfold hierL4 at hy
    rw [List.mem_flatten] at hy
    obtain ⟨s, hs, hys⟩ := hy
    rw [List.mem_map] at hs
    obtain ⟨c, hcL3, hc⟩ := hs
    subst hc
    obtain ⟨v, hv, hyv⟩ := mem_lookupD _ _ _ hys
    have hinv := (hierInv_build assets).2.2 _ hv a hyv
    have hcA : c ∈ assets := (hierL3_elem assets c hcL3).1
    apply horph c hcA
    have hfb := hinv.2.1
    simp only [isFileB, Bool.and_eq_true, Bool.not_eq_true'] at hfb
    have hnb : ¬(a.assetType = "Azure Blob Storage") := by
      intro e
      have hfalse := hfb.1.1.2
      simp [isBlobStorageB, e] at hfalse
    unfold parentKeyOf
    rw [if_neg hnb]
    exact hinv.2.2.symm
  omega

/-- Witness for the amended C2 theorem at a concrete input: the orphan
blob-storage entity is absent from the rendered forest. -/
theorem orphan_entity_absent_from_forest_witness :
    (orphanBlobB.assetType = "Azure Blob Storage" ∨
        orphanBlobB.assetType = "Azure Blob Container" ∨
        isFileB orphanBlobB = true) ∧
      (∀ x ∈ [orphanBlobB], x.connection ≠ parentKeyOf orphanBlobB) ∧
      orphanBlobB ∉ renderedForestAssets [orphanBlobB] :=
  ⟨Or.inl (by decide), by decide,
    orphan_entity_absent_from_forest [orphanBlobB] orphanBlobB
      (Or.inl (by decide)) (by decide)⟩

/-! ## Bulk tag removal: loop behaviour -/

theorem removeTagsLoop_all_ok (w : String → Option String)
    (guids : List String) (ts : List String)
    (hok : ∀ s ∈ ts, w s = none) :
    removeTagsLoop w guids ts
      = (ts.map (fun t => ⟨guids, t⟩), none) := by
  induction ts with
  | nil => simp [removeTagsLoop]
  | cons t ts ih =>
    have ht : w t = none := hok t (by simp)
    have ihr := ih (fun s hs => hok s (by simp [hs]))
    simp [removeTagsLoop, ht, ihr]

theorem removeTagsLoop_first_failure (w : String → Option String)
    (guids : List String) (l1 : List String) (t : String)
    (l2 : List String) (e : String)
    (hok : ∀ s ∈ l1, w s = none) (hfail : w t = some e) :
    removeTagsLoop w guids (l1 ++ t :: l2)
      = (l1.map (fun s => ⟨guids, s⟩) ++ [⟨guids, t⟩], some e) := by
  induction l1 with
  | nil => simp [removeTagsLoop, hfail]
  | cons s l1 ih =>
    have hs : w s = none := hok s (by simp)
    have ihr := ih (fun r hr => hok r (by simp [hr]))
    simp [removeTagsLoop, hs, ihr]

/-- Claim C3, as stated, is false: with three tags `A`, `B`, `C` and a
write oracle failing on `B`, the bulk removal issues only the requests
for `A` and `B` — `C` is never attempted — and the reported outcome is
the single error string of the first failure, not an aggregate of
succeeded and failed counts. -/
theorem remove_all_tags_counterexample :
    (handleRemoveAllTags failingOnB ["g1"] ["A", "B", "C"]).1
        = [⟨["g1"], "A"⟩, ⟨["g1"], "B"⟩] ∧
      (handleRemoveAllTags failingOnB ["g1"] ["A", "B", "C"]).2
        = some "network failure" := by decide

/-- Claim C3, amended: the batch stops at the first failing key — the
keys before it are each attempted once, the failing key is attempted,
and the keys after it are not attempted; the reported outcome is a
single overall result (success, or the first failure's reason), not a
per-key aggregate of succeeded and failed counts. -/
theorem remove_all_tags_stops_at_first_failure
    (w : String → Option String) (guids : List String)
    (hg : guids ≠ []) :
    (∀ (l1 : List String) (t : String) (l2 : List String) (e : String),
        (∀ s ∈ l1, w s = none) → w t = some e →
        handleRemoveAllTags w guids (l1 ++ t :: l2)
          = (l1.map (fun s => ⟨guids, s⟩) ++ [⟨guids, t⟩], some e)) ∧
      (∀ ts : List String, (∀ s ∈ ts, w s = none) →
        handleRemoveAllTags w guids ts
          = (ts.map (fun t => ⟨guids, t⟩), none)) := by
  have hglen : ¬(guids.length = 0) := by
    simpa [List.length_eq_zero] using hg
  constructor
  · intro l1 t l2 e hok hfail
    have hne : ¬((l1 ++ t :: l2).length = 0) := by
      simp
    simp only [handleRemoveAllTags, hglen, hne, if_false]
    exact removeTagsLoop_first_failure w guids l1 t l2 e hok hfail
  · intro ts hok
    by_cases hts : ts.length = 0
    · have : ts = [] := List.length_eq_zero.mp hts
      subst this
      simp [handleRemoveAllTags, hglen]
    · simp only [handleRemoveAllTags, hglen, hts, if_false]
      exact removeTagsLoop_all_ok w guids ts hok

/-- Witness for the amended C3 theorem: concrete three-tag run failing
on the middle tag, and a concrete all-success run. -/
theorem remove_all_tags_stops_at_first_failure_witness :
    handleRemoveAllTags failingOnB ["g1"] (["A"] ++ "B" :: ["C"])
        = (["A"].map (fun s => ⟨["g1"], s⟩) ++ [⟨["g1"], "B"⟩],
            some "network failure") ∧
      handleRemoveAllTags failingOnB ["g1"] ["A", "C"]
        = (["A", "C"].map (fun t => ⟨["g1"], t⟩), none) :=
  ⟨(remove_all_tags_stops_at_first_failure failingOnB ["g1"]
      (by decide)).1 ["A"] "B" ["C"] "network failure"
      (by decide) (by decide),
    (remove_all_tags_stops_at_first_failure failingOnB ["g1"]
      (by decide)).2 ["A", "C"] (by decide)⟩

/-- Claim C6: for a baseline tag list of n values, remove-all-tags
issues exactly n remove-tag requests — one per existing baseline tag
value, each carrying that single tag — rather than a single bulk-clear
call (shown here for runs whose writes all resolve). -/
theorem remove_all_tags_one_call_per_tag (w : String → Option String)
    (guids existingTags : List String) (hg : guids ≠ [])
    (hok : ∀ s ∈ existingTags, w s = none) :
    (handleRemoveAllTags w guids existingTags).1
        = existingTags.map (fun t => ⟨guids, t⟩) ∧
      (handleRemoveAllTags w guids existingTags).1.length
        = existingTags.length := by
  have hglen : ¬(guids.length = 0) := by
    simpa [List.length_eq_zero] using hg
  by_cases hts : existingTags.length = 0
  · have : existingTags = [] := List.length_eq_zero.mp hts
    subst this
    simp [handleRemoveAllTags, hglen]
  · simp only [handleRemoveAllTags, hglen, hts, if_false]
    rw [removeTagsLoop_all_ok w guids existingTags hok]
    simp

/-- Witness for C6: baseline tags `A`, `B`, `C` yield exactly 3
remove-tag requests, one per tag. -/
theorem remove_all_tags_one_call_per_tag_witness :
    (handleRemoveAllTags (fun _ => none) ["g1"] ["A", "B", "C"]).1
        = [⟨["g1"], "A"⟩, ⟨["g1"], "B"⟩, ⟨["g1"], "C"⟩] ∧
      (handleRemoveAllTags (fun _ => none) ["g1"] ["A", "B", "C"]).1.length
        = 3 :=
  remove_all_tags_one_call_per_tag (fun _ => none) ["g1"] ["A", "B", "C"]
    (by decide) (fun s _ => rfl)

/-- Claim C7: clicking select on a hierarchy node that has at least one
child leaves the selection set exactly unchanged (the handler returns
before touching it); only leaf nodes toggle membership. -/
theorem select_nonleaf_is_noop (sel : List SelectedAsset)
    (asset : SelectedAsset) (children : List Asset)
    (hch : children ≠ []) : handleSelect sel asset children = sel := by
  have hlen : children.length > 0 := List.length_pos.mpr hch
  simp [handleSelect, hlen]

/-- Witness for C7: selecting the account node (which has its blob
storage tier as a child) leaves a nonempty selection set unchanged. -/
theorem select_nonleaf_is_noop_witness :
    ([blobExample] ≠ ([] : List Asset)) ∧
      handleSelect [selFile1] selFile2 [blobExample] = [selFile1] :=
  ⟨by decide, select_nonleaf_is_noop [selFile1] selFile2 [blobExample]
    (by decide)⟩

/-- Claim C8: adding an entity whose id is already present leaves the
selection set exactly as it was (the existing entry keeps its position);
adding a new id appends it at the end, preserving existing order. -/
theorem addAsset_spec (prev : List SelectedAsset) (asset : SelectedAsset) :
    ((∃ x ∈ prev, x.id = asset.id) → addAsset prev asset = prev) ∧
      (¬(∃ x ∈ prev, x.id = asset.id) →
        addAsset prev asset = prev ++ [asset]) := by
  constructor
  · intro h
    have hb : prev.any (fun a => a.id = asset.id) = true := by
      rw [List.any_eq_true]
      obtain ⟨x, hx, he⟩ := h
      exact ⟨x, hx, by simp [he]⟩
    simp [addAsset, hb]
  · intro h
    unfold addAsset
    rw [if_neg]
    intro hb
    rw [List.any_eq_true] at hb
    obtain ⟨x, hx, he⟩ := hb
    exact h ⟨x, hx, by simpa using he⟩

/-- Witness for C8: re-adding `f1` under a different display name is a
no-op, while adding the fresh id `f2` appends at the end. -/
theorem addAsset_spec_witness :
    addAsset [selFile1] selFile1Renamed = [selFile1] ∧
      addAsset [selFile1] selFile2 = [selFile1, selFile2] :=
  ⟨(addAsset_spec [selFile1] selFile1Renamed).1
      ⟨selFile1, by decide, by decide⟩,
    (addAsset_spec [selFile1] selFile2).2 (by decide)⟩

/-- Claim C10: the requests built for removing one named owner
(respectively expert) contact carry only the selected entity ids and the
contact type — the chosen contact's user id does not occur in them — and
coincide with the corresponding remove-ALL request for that contact
type, so the operation has the remove-all effect regardless of which
contact was named. -/
theorem remove_specific_contact_equals_remove_all :
    (∀ (guids : List String) (ownerId displayName : String),
        removeSpecificOwnerRequest guids ownerId displayName
          = removeOwnerRequest guids) ∧
      (∀ (guids : List String) (expertId displayName : String),
        removeSpecificExpertRequest guids expertId displayName
          = removeExpertRequest guids) :=
  ⟨fun _ _ _ => rfl, fun _ _ _ => rfl⟩

/-! ## Suggestion ingestion lemmas -/

theorem lookupS_assignK (m : List (String × List String)) (k k' : String)
    (v : List String) :
    lookupS (assignK m k v) k'
      = if k = k' then some v else lookupS m k' := by
  induction m with
  | nil =>
    by_cases h : k = k' <;> simp [assignK, lookupS, h]
  | cons kv rest ih =>
    obtain ⟨k₀, v₀⟩ := kv
    by_cases hk : k₀ = k
    · subst hk
      by_cases h : k₀ = k' <;> simp [assignK, lookupS, h]
    · by_cases h : k₀ = k'
      · subst h
        have : ¬(k = k₀) := fun he => hk he.symm
        simp [assignK, lookupS, hk, this]
      · simp [assignK, lookupS, hk, h, ih]

theorem lookupS_foldl_column (cls : List (String × ColumnInfo))
    (acc : List (String × List String)) (k : String)
    (h : ∀ cp ∈ cls, cp.1 ≠ k ∨ cp.2.classifications = []) :
    lookupS (cls.foldl suggColumnStep acc) k = lookupS acc k := by
  induction cls generalizing acc with
  | nil => simp
  | cons cp cls ih =>
    rw [List.foldl_cons]
    rw [ih _ (fun c hc => h c (by simp [hc]))]
    rcases h cp (by simp) with hne | hempty
    · by_cases hlen : cp.2.classifications.length > 0
      · simp only [suggColumnStep, hlen, if_true]
        rw [lookupS_assignK, if_neg hne]
      · simp [suggColumnStep, hlen]
    · simp [suggColumnStep, hempty]

theorem lookupS_foldl_entity (suggs : List (String × EntitySuggestion))
    (acc : List (String × List String)) (k : String)
    (h : ∀ e ∈ suggs, e.2.has_schema = true →
      ∀ cp ∈ e.2.classifications, cp.1 ≠ k ∨ cp.2.classifications = []) :
    lookupS (suggs.foldl suggEntityStep acc) k = lookupS acc k := by
  induction suggs generalizing acc with
  | nil => simp
  | cons e suggs ih =>
    rw [List.foldl_cons]
    rw [ih _ (fun e' he' => h e' (by simp [he']))]
    by_cases hsch : e.2.has_schema = true
    · simp only [suggEntityStep, hsch, if_true]
      exact lookupS_foldl_column e.2.classifications acc k (h e (by simp) hsch)
    · simp [suggEntityStep, hsch]

theorem lookupS_buildSuggestionMap_none
    (suggs : List (String × EntitySuggestion)) (k : String)
    (h : ∀ e ∈ suggs, e.2.has_schema = true →
      ∀ cp ∈ e.2.classifications, cp.1 ≠ k ∨ cp.2.classifications = []) :
    lookupS (buildSuggestionMap suggs) k = none := by
  unfold buildSuggestionMap
  rw [lookupS_foldl_entity suggs [] k h]
  rfl

/-- Claim C4, as stated, is false: with the pending map holding the
user's edit `UserPick` for column `col1`, ingesting a suggestion batch
that suggests only for `col2` leaves `col1` with NO value afterwards —
the edited value is not kept, because the handler replaces the whole
map with the freshly built suggestion map. -/
theorem auto_classify_counterexample :
    lookupS (handleAutoClassifyIngest [("col1", ["UserPick"])]
        [("e1", ⟨true, [("col2", ⟨["MICROSOFT.PII"]⟩)]⟩)]) "col1"
      = none := by decide

/-- Claim C4, amended: ingesting suggestions replaces the pending
column-classification map wholesale — the result does not depend on the
previous map at all, and any key without a non-empty suggestion
(user-edited or not) is absent afterwards. -/
theorem auto_classify_ingest_replaces_wholesale
    (cc cc' : List (String × List String))
    (suggs : List (String × EntitySuggestion)) (k : String)
    (hk : ∀ e ∈ suggs, e.2.has_schema = true →
      ∀ cp ∈ e.2.classifications, cp.1 ≠ k ∨ cp.2.classifications = []) :
    handleAutoClassifyIngest cc suggs = handleAutoClassifyIngest cc' suggs ∧
      lookupS (handleAutoClassifyIngest cc suggs) k = none :=
  ⟨rfl, lookupS_buildSuggestionMap_none suggs k hk⟩

/-- Witness for the amended C4 theorem: the user-edited key `col1` is
absent after ingesting a suggestion batch that only covers `col2`, and
the result equals the one computed from an empty prior map. -/
theorem auto_classify_ingest_replaces_wholesale_witness :
    handleAutoClassifyIngest [("col1", ["UserPick"])]
        [("e1", ⟨true, [("col2", ⟨["MICROSOFT.PII"]⟩)]⟩)]
      = handleAutoClassifyIngest []
          [("e1", ⟨true, [("col2", ⟨["MICROSOFT.PII"]⟩)]⟩)] ∧
      lookupS (handleAutoClassifyIngest [("col1", ["UserPick"])]
          [("e1", ⟨true, [("col2", ⟨["MICROSOFT.PII"]⟩)]⟩)]) "col1"
        = none :=
  auto_classify_ingest_replaces_wholesale [("col1", ["UserPick"])] []
    [("e1", ⟨true, [("col2", ⟨["MICROSOFT.PII"]⟩)]⟩)] "col1" (by decide)

/-- Claim C5: given the storage account with path
`acct.core.windows.net` and the blob storage entity with path
`acct.blob.core.windows.net`, the resolver canonicalizes the blob
storage's domain suffix and attaches it as the (only) child of the
account: the account is the sole root and the rendered forest lists the
account followed by its blob storage child. -/
theorem blob_storage_attaches_to_account :
    (buildStorageHierarchy [acctExample, blobExample]).accounts
        = [acctExample] ∧
      childListFor (buildStorageHierarchy [acctExample, blobExample])
          acctExample = [blobExample] ∧
      renderedForestAssets [acctExample, blobExample]
        = [acctExample, blobExample] := by
  refine ⟨by decide, by decide, by decide⟩

/-- Claim C9: recording an interaction updates the persisted
most-recently-interacted id list so that it never exceeds 10 entries,
the recorded id sits at the front exactly once (an id already present is
moved, not duplicated), and a duplicate-free list stays duplicate-free. -/
theorem handleAssetClick_spec (recent : List String) (assetId : String) :
    (handleAssetClick recent assetId).length ≤ 10 ∧
      (handleAssetClick recent assetId).head? = some assetId ∧
      (handleAssetClick recent assetId).count assetId = 1 ∧
      (recent.Nodup → (handleAssetClick recent assetId).Nodup) := by
  have hfilter : assetId ∉ recent.filter (fun id => !(id = assetId)) := by
    intro hmem
    have := List.of_mem_filter hmem
    simp at this
  have hcount0 :
      (recent.filter (fun id => !(id = assetId))).count assetId = 0 :=
    List.count_eq_zero.mpr hfilter
  unfold handleAssetClick
  rw [show (10 : Nat) = 9 + 1 from rfl, List.take_succ_cons]
  refine ⟨?_, rfl, ?_, ?_⟩
  · have hlen := List.length_take_le 9
      (recent.filter (fun id => !(id = assetId)))
    simp only [List.length_cons]
    omega
  · rw [List.count_cons]
    have hle : ((recent.filter (fun id => !(id = assetId))).take 9).count
        assetId ≤ (recent.filter (fun id => !(id = assetId))).count assetId :=
      (List.take_sublist 9 _).count_le assetId
    simp only [beq_self_eq_true, if_true]
    omega
  · intro hnd
    rw [List.nodup_cons]
    constructor
    · intro hmem
      exact hfilter (List.take_subset 9 _ hmem)
    · exact (List.take_sublist 9 _).nodup (hnd.filter _)

/-- Witness for C9: clicking `b` with stored list `[a, b]` keeps the
list duplicate-free (and, by the same theorem, caps it and fronts `b`). -/
theorem handleAssetClick_spec_witness :
    (["a", "b"].Nodup) ∧ (handleAssetClick ["a", "b"] "b").Nodup :=
  ⟨by decide, (handleAssetClick_spec ["a", "b"] "b").2.2.2 (by decide)⟩
